import Mathlib

/-!
Shallow embedding of the scaledown context-reduction pipeline.

Embedded source files:
* `scaledown/pipeline.py` — `Pipeline._validate_steps`, `Pipeline.run`
* `scaledown/types/metrics.py` — `count_tokens`, `OptimizerMetrics`
* `scaledown/optimizer/haste.py` — `HasteOptimizer.optimize`
* `scaledown/optimizer/semantic_code.py` — `SemanticOptimizer.optimize`,
  `SemanticOptimizer._create_fallback_context`

Machine-level conventions: Python ints are `Nat` (token counts are
non-negative lengths), Python floats that only ever hold exact ratios of
token counts are `Rat`, exceptions are `Except`, `None`-able strings are
`Option String`. External collaborators (tiktoken, the HASTE library,
sentence-transformers/FAISS, the filesystem) are parameters of the embedded
functions, so every theorem quantifies over their behaviour.
-/

/-- `OptimizerMetrics` dataclass (scaledown/types/metrics.py). -/
structure OptimizerMetrics where
  original_tokens : Nat
  optimized_tokens : Nat
  chunks_retrieved : Nat
  compression_ratio : Rat
  latency_ms : Rat
  retrieval_mode : String
  ast_fidelity : Rat
deriving DecidableEq

/-- Output record of an optimizer step, as constructed by the optimizers and
read by pipeline.py (`result.content`, `result.metrics`). -/
structure OptimizedContext where
  content : String
  metrics : OptimizerMetrics
deriving DecidableEq

/-- Output record of a compressor step, with exactly the fields pipeline.py
reads: `result.content`, `result.tokens[0]`, `result.tokens[1]`,
`result.latency`. -/
structure CompressedPrompt where
  content : String
  tokens : Nat × Nat
  latency : Rat
deriving DecidableEq

/-- The `details` dict appended to each history entry in `Pipeline.run`:
`{"type": step_type, "component": component.__class__.__name__}`. -/
structure StepDetails where
  type : String
  component : String
deriving DecidableEq

/-- `StepMetadata` record: one history entry per executed step. -/
structure StepMetadata where
  step_name : String
  input_tokens : Nat
  output_tokens : Nat
  latency_ms : Rat
  details : StepDetails
deriving DecidableEq

/-- `PipelineResult` record returned by `Pipeline.run`. -/
structure PipelineResult where
  final_content : String
  original_content : String
  history : List StepMetadata
deriving DecidableEq

/-- A pipeline step handler: the closed sum behind the `isinstance` dispatch
in pipeline.py (`BaseOptimizer` / `BaseCompressor` / generic callable).
Each constructor carries the handler class name
(`component.__class__.__name__`, used for `details.component`) and the
callable. `κ` is the `**kwargs` bag `run` forwards verbatim to every step;
`ε` is the type of exceptions a step may raise. -/
inductive Handler (κ ε : Type) where
  | optimizer (cls : String) (f : String → κ → Except ε OptimizedContext)
  | compressor (cls : String) (f : String → κ → Except ε CompressedPrompt)
  | generic (cls : String) (f : String → κ → Except ε String)

/-- `isinstance(step, BaseCompressor)`. -/
def Handler.isCompressor {κ ε} : Handler κ ε → Bool
  | .compressor _ _ => true
  | _ => false

/-- `isinstance(step, BaseOptimizer)`. -/
def Handler.isOptimizer {κ ε} : Handler κ ε → Bool
  | .optimizer _ _ => true
  | _ => false

/-- Neither optimizer- nor compressor-capable. -/
def Handler.isGeneric {κ ε} : Handler κ ε → Bool
  | .generic _ _ => true
  | _ => false

/-- The `ConfigurationError` kind of the spec (§7). The source raises
`ValueError`; the ordering violation names the offending step in its
message, modelled here by the constructor argument. -/
inductive ConfigError where
  | emptyPipeline
  | optimizerAfterCompressor (name : String)
deriving DecidableEq

/-- The left-to-right scan of `Pipeline._validate_steps` (pipeline.py lines
43-52), with its `seen_compressor` flag. -/
def validateScan {κ ε} (seen : Bool) : List (String × Handler κ ε) → Except ConfigError Unit
  | [] => .ok ()
  | (name, step) :: rest =>
    match step with
    | .compressor _ _ => validateScan true rest
    | .optimizer _ _ =>
      if seen then .error (ConfigError.optimizerAfterCompressor name)
      else validateScan seen rest
    | .generic _ _ => validateScan seen rest

/-- `Pipeline._validate_steps` (pipeline.py lines 38-52): reject an empty
step list, then run the ordering scan. -/
def validateSteps {κ ε} (steps : List (String × Handler κ ε)) : Except ConfigError Unit :=
  match steps with
  | [] => .error ConfigError.emptyPipeline
  | s :: rest => validateScan false (s :: rest)

/-- The identical step sequence with all Compressor-capable steps moved
after all other steps, relative order preserved (the rearrangement named by
the spec's ordering property, §8). -/
def moveCompressorsToEnd {κ ε} (steps : List (String × Handler κ ε)) :
    List (String × Handler κ ε) :=
  steps.filter (fun s => ! s.2.isCompressor) ++ steps.filter (fun s => s.2.isCompressor)

lemma validateScan_true_error {κ ε} (steps : List (String × Handler κ ε))
    (nm : String) (cls : String) (f : String → κ → Except ε OptimizedContext)
    (hmem : (nm, Handler.optimizer cls f) ∈ steps) :
    ∃ n c g, (n, Handler.optimizer c g) ∈ steps ∧
      validateScan true steps = .error (ConfigError.optimizerAfterCompressor n) := by
  induction steps with
  | nil => simp at hmem
  | cons hd tl ih =>
    obtain ⟨hname, hstep⟩ := hd
    match hstep with
    | .optimizer c g =>
      exact ⟨hname, c, g, List.mem_cons_self _ _, rfl⟩
    | .compressor c g =>
      have hmem' : (nm, Handler.optimizer cls f) ∈ tl := by
        rcases List.mem_cons.mp hmem with h | h
        · exact absurd (congrArg Prod.snd h) (by simp)
        · exact h
      obtain ⟨n, c', g', hn, hval⟩ := ih hmem'
      exact ⟨n, c', g', List.mem_cons_of_mem _ hn, hval⟩
    | .generic c g =>
      have hmem' : (nm, Handler.optimizer cls f) ∈ tl := by
        rcases List.mem_cons.mp hmem with h | h
        · exact absurd (congrArg Prod.snd h) (by simp)
        · exact h
      obtain ⟨n, c', g', hn, hval⟩ := ih hmem'
      exact ⟨n, c', g', List.mem_cons_of_mem _ hn, hval⟩

lemma optimizer_shape {κ ε} (h : Handler κ ε) (ho : h.isOptimizer = true) :
    ∃ c f, h = Handler.optimizer c f := by
  cases h with
  | optimizer c f => exact ⟨c, f, rfl⟩
  | compressor c f => simp [Handler.isOptimizer] at ho
  | generic c f => simp [Handler.isOptimizer] at ho

lemma optimizer_mem_of_get {κ ε} (l : List (String × Handler κ ε)) (i : Nat)
    (h : i < l.length) (ho : (l.get ⟨i, h⟩).2.isOptimizer = true) :
    ∃ n c f, (n, Handler.optimizer c f) ∈ l := by
  obtain ⟨c, f, hs⟩ := optimizer_shape _ ho
  refine ⟨(l.get ⟨i, h⟩).1, c, f, ?_⟩
  have hm : ((l.get ⟨i, h⟩).1, (l.get ⟨i, h⟩).2) ∈ l := List.get_mem l i h
  rw [hs] at hm
  exact hm

lemma validateScan_false_error {κ ε} (steps : List (String × Handler κ ε))
    (k j : Nat) (hkj : k < j) (hj : j < steps.length)
    (hc : (steps.get ⟨k, lt_trans hkj hj⟩).2.isCompressor = true)
    (ho : (steps.get ⟨j, hj⟩).2.isOptimizer = true) :
    ∃ n c g, (n, Handler.optimizer c g) ∈ steps ∧
      validateScan false steps = .error (ConfigError.optimizerAfterCompressor n) := by
  induction steps generalizing k j with
  | nil => simp at hj
  | cons hd tl ih =>
    obtain ⟨hname, hstep⟩ := hd
    match j, hj, hkj, hc, ho with
    | j'' + 1, hj, hkj, hc, ho =>
    have hj'' : j'' < tl.length := Nat.lt_of_succ_lt_succ hj
    have ho' : (tl.get ⟨j'', hj''⟩).2.isOptimizer = true := ho
    cases hstep with
    | compressor cc fc =>
      obtain ⟨n, c, f, hmem⟩ := optimizer_mem_of_get tl j'' hj'' ho'
      obtain ⟨n', c', f', hmem', hval⟩ := validateScan_true_error tl n c f hmem
      exact ⟨n', c', f', List.mem_cons_of_mem _ hmem',
        by simpa [validateScan] using hval⟩
    | optimizer co fo =>
      match k, hkj, hc with
      | 0, hkj, hc => simp [Handler.isCompressor] at hc
      | k' + 1, hkj, hc =>
        have hkj' : k' < j'' := Nat.lt_of_succ_lt_succ hkj
        have hc' : (tl.get ⟨k', lt_trans hkj' hj''⟩).2.isCompressor = true := hc
        obtain ⟨n, c, g, hn, hval⟩ := ih k' j'' hkj' hj'' hc' ho'
        exact ⟨n, c, g, List.mem_cons_of_mem _ hn,
          by simpa [validateScan] using hval⟩
    | generic co fo =>
      match k, hkj, hc with
      | 0, hkj, hc => simp [Handler.isCompressor] at hc
      | k' + 1, hkj, hc =>
        have hkj' : k' < j'' := Nat.lt_of_succ_lt_succ hkj
        have hc' : (tl.get ⟨k', lt_trans hkj' hj''⟩).2.isCompressor = true := hc
        obtain ⟨n, c, g, hn, hval⟩ := ih k' j'' hkj' hj'' hc' ho'
        exact ⟨n, c, g, List.mem_cons_of_mem _ hn,
          by simpa [validateScan] using hval⟩

lemma validateScan_no_compressor_append {κ ε} (A B : List (String × Handler κ ε))
    (hA : ∀ s ∈ A, s.2.isCompressor = false) :
    validateScan false (A ++ B) = validateScan false B := by
  induction A with
  | nil => rfl
  | cons hd tl ih =>
    obtain ⟨hname, hstep⟩ := hd
    have hhd : (Handler.isCompressor hstep) = false := hA _ (List.mem_cons_self _ _)
    have htl : ∀ s ∈ tl, s.2.isCompressor = false :=
      fun s hs => hA s (List.mem_cons_of_mem _ hs)
    match hstep, hhd with
    | .optimizer c f, _ => simpa [validateScan] using ih htl
    | .generic c f, _ => simpa [validateScan] using ih htl

lemma validateScan_all_compressor {κ ε} (seen : Bool) (B : List (String × Handler κ ε))
    (hB : ∀ s ∈ B, s.2.isCompressor = true) :
    validateScan seen B = .ok () := by
  induction B generalizing seen with
  | nil => rfl
  | cons hd tl ih =>
    obtain ⟨hname, hstep⟩ := hd
    have hhd : (Handler.isCompressor hstep) = true := hB _ (List.mem_cons_self _ _)
    have htl : ∀ s ∈ tl, s.2.isCompressor = true :=
      fun s hs => hB s (List.mem_cons_of_mem _ hs)
    match hstep, hhd with
    | .compressor c f, _ => simpa [validateScan] using ih true htl

lemma moveCompressorsToEnd_ne_nil {κ ε} (steps : List (String × Handler κ ε))
    (h : steps ≠ []) : moveCompressorsToEnd steps ≠ [] := by
  intro hcontra
  rcases List.append_eq_nil.mp hcontra with ⟨h1, h2⟩
  match steps, h with
  | hd :: tl, _ =>
    by_cases hcomp : hd.2.isCompressor = true
    · have : hd ∈ List.filter (fun s => s.2.isCompressor) (hd :: tl) :=
        List.mem_filter.mpr ⟨List.mem_cons_self _ _, hcomp⟩
      rw [h2] at this
      simp at this
    · have : hd ∈ List.filter (fun s => ! s.2.isCompressor) (hd :: tl) :=
        List.mem_filter.mpr ⟨List.mem_cons_self _ _, by simp [hcomp]⟩
      rw [h1] at this
      simp at this

lemma validateSteps_moveCompressorsToEnd {κ ε} (steps : List (String × Handler κ ε))
    (h : steps ≠ []) : validateSteps (moveCompressorsToEnd steps) = .ok () := by
  have hne := moveCompressorsToEnd_ne_nil steps h
  have hscan : validateScan false (moveCompressorsToEnd steps) = .ok () := by
    unfold moveCompressorsToEnd
    rw [validateScan_no_compressor_append]
    · exact validateScan_all_compressor false _ (fun s hs => (List.mem_filter.mp hs).2)
    · intro s hs
      have := (List.mem_filter.mp hs).2
      simpa using this
  match hmv : moveCompressorsToEnd steps, hne with
  | s :: rest, _ =>
    rw [hmv] at hscan
    exact hscan

lemma validateScan_filter_generic {κ ε} (seen : Bool) (steps : List (String × Handler κ ε)) :
    validateScan seen steps =
      validateScan seen (steps.filter (fun s => ! s.2.isGeneric)) := by
  induction steps generalizing seen with
  | nil => rfl
  | cons hd tl ih =>
    obtain ⟨hname, hstep⟩ := hd
    match hstep with
    | .optimizer c f =>
      by_cases hseen : seen
      · subst hseen
        simp [validateScan, Handler.isGeneric, List.filter]
      · simp only [Bool.not_eq_true] at hseen
        subst hseen
        simpa [validateScan, Handler.isGeneric, List.filter] using ih false
    | .compressor c f =>
      simpa [validateScan, Handler.isGeneric, List.filter] using ih true
    | .generic c f =>
      simpa [validateScan, Handler.isGeneric, List.filter] using ih seen

/-- C1: once a Compressor-capable handler appears at position `k`, an
Optimizer-capable handler at any position `j > k` makes `_validate_steps`
fail with the ConfigurationError kind naming an offending optimizer step;
steps that are neither optimizer- nor compressor-capable never affect the
scan; and the identical sequence with all compressors moved after all other
steps validates successfully. -/
theorem pipeline_ordering_invariant {κ ε : Type} (steps : List (String × Handler κ ε))
    (k j : Nat) (hkj : k < j) (hj : j < steps.length)
    (hc : (steps.get ⟨k, lt_trans hkj hj⟩).2.isCompressor = true)
    (ho : (steps.get ⟨j, hj⟩).2.isOptimizer = true) :
    (∃ n c g, (n, Handler.optimizer c g) ∈ steps ∧
       validateSteps steps = .error (ConfigError.optimizerAfterCompressor n))
    ∧ validateScan false steps =
        validateScan false (steps.filter (fun s => ! s.2.isGeneric))
    ∧ validateSteps (moveCompressorsToEnd steps) = .ok () := by
  have hne : steps ≠ [] := by
    intro hnil
    rw [hnil] at hj
    simp at hj
  refine ⟨?_, validateScan_filter_generic false steps,
    validateSteps_moveCompressorsToEnd steps hne⟩
  obtain ⟨n, c, g, hn, hval⟩ := validateScan_false_error steps k j hkj hj hc ho
  refine ⟨n, c, g, hn, ?_⟩
  match steps, hne with
  | s :: rest, _ => exact hval

/-- Concrete two-step pipeline (compressor then optimizer) used as the
witness input for the ordering theorem. -/
def cStepW : String × Handler Unit Unit :=
  ("comp", Handler.compressor "ScaleDownCompressor" (fun s _ => .ok ⟨s, (0, 0), 0⟩))

/-- Concrete optimizer step used as the witness input. -/
def oStepW : String × Handler Unit Unit :=
  ("opt", Handler.optimizer "HasteOptimizer"
    (fun s _ => .ok ⟨s, ⟨0, 0, 0, 0, 0, "bm25", 1⟩⟩))

/-- Witness for C1 at the concrete pipeline `[compressor, optimizer]`. -/
theorem pipeline_ordering_invariant_witness :
    (∃ n c g, (n, Handler.optimizer c g) ∈ [cStepW, oStepW] ∧
       validateSteps [cStepW, oStepW] = .error (ConfigError.optimizerAfterCompressor n))
    ∧ validateScan false [cStepW, oStepW] =
        validateScan false ([cStepW, oStepW].filter (fun s => ! s.2.isGeneric))
    ∧ validateSteps (moveCompressorsToEnd [cStepW, oStepW]) = .ok () :=
  pipeline_ordering_invariant [cStepW, oStepW] 0 1 (by decide) (by decide) rfl rfl

/-- C7: a zero-step pipeline is rejected at construction with the
ConfigurationError kind (pipeline.py lines 40-41 raise on `not self.steps`). -/
theorem empty_pipeline_rejected (κ ε : Type) :
    validateSteps ([] : List (String × Handler κ ε)) = .error ConfigError.emptyPipeline :=
  rfl

/-- The body of the per-step loop in `Pipeline.run` (pipeline.py lines
58-99): capability dispatch plus construction of the step's `StepMetadata`.
`ct` is the tokenizer `count_tokens` at its default model, used only on the
generic branch. On every branch the `**kwargs` bag `kw` is passed to the
handler unchanged, exactly as `component.compress(context=current_context,
**kwargs)` and the optimizer/generic calls do. -/
def applyStep {κ ε} (ct : String → Nat) (name : String) (component : Handler κ ε)
    (current : String) (kw : κ) : Except ε (String × StepMetadata) :=
  match component with
  | .optimizer cls f =>
    (f current kw).map fun result =>
      (result.content,
        ⟨name, result.metrics.original_tokens, result.metrics.optimized_tokens,
          result.metrics.latency_ms, ⟨"optimization", cls⟩⟩)
  | .compressor cls f =>
    (f current kw).map fun result =>
      (result.content,
        ⟨name, result.tokens.1, result.tokens.2, result.latency,
          ⟨"compression", cls⟩⟩)
  | .generic cls f =>
    (f current kw).map fun output =>
      (output, ⟨name, ct current, ct output, 0, ⟨"custom", cls⟩⟩)

/-- The loop of `Pipeline.run`: thread `current_context` through the steps,
appending one history entry per executed step; a step that raises aborts the
whole loop with that exception (the source wraps the loop in no handler). -/
def runLoop {κ ε} (ct : String → Nat) (kw : κ) :
    List (String × Handler κ ε) → String → Except ε (String × List StepMetadata)
  | [], current => .ok (current, [])
  | (name, component) :: rest, current =>
    match applyStep ct name component current kw with
    | .error e => .error e
    | .ok (next, md) =>
      match runLoop ct kw rest next with
      | .error e => .error e
      | .ok (final, hist) => .ok (final, md :: hist)

/-- `Pipeline.run` (pipeline.py lines 53-105): snapshot the input, run the
loop, and package `PipelineResult(final_content=current,
original_content=original, history=history)`. -/
def Pipeline.run {κ ε} (ct : String → Nat) (steps : List (String × Handler κ ε))
    (context : String) (kw : κ) : Except ε PipelineResult :=
  match runLoop ct kw steps context with
  | .error e => .error e
  | .ok (final, hist) => .ok ⟨final, context, hist⟩

lemma runLoop_append {κ ε} (ct : String → Nat) (kw : κ)
    (s1 s2 : List (String × Handler κ ε)) (cur : String) :
    runLoop ct kw (s1 ++ s2) cur =
      match runLoop ct kw s1 cur with
      | .error e => .error e
      | .ok (mid, h1) =>
        match runLoop ct kw s2 mid with
        | .error e => .error e
        | .ok (fin, h2) => .ok (fin, h1 ++ h2) := by
  induction s1 generalizing cur with
  | nil =>
    simp only [List.nil_append, runLoop]
    cases hr : runLoop ct kw s2 cur with
    | error e => rfl
    | ok p => obtain ⟨fin, h2⟩ := p; simp
  | cons hd tl ih =>
    obtain ⟨name, component⟩ := hd
    simp only [List.cons_append, runLoop]
    cases ha : applyStep ct name component cur kw with
    | error e => rfl
    | ok p =>
      obtain ⟨next, md⟩ := p
      simp only [List.append_eq]
      rw [ih next]
      cases hr : runLoop ct kw tl next with
      | error e => rfl
      | ok q =>
        obtain ⟨mid, h1⟩ := q
        simp only []
        cases hs : runLoop ct kw s2 mid with
        | error e => rfl
        | ok w => obtain ⟨fin, h2⟩ := w; simp

lemma runLoop_ok_split {κ ε} (ct : String → Nat) (kw : κ)
    (s1 s2 : List (String × Handler κ ε)) (cur fin : String)
    (hist : List StepMetadata)
    (h : runLoop ct kw (s1 ++ s2) cur = .ok (fin, hist)) :
    ∃ mid h1 h2, runLoop ct kw s1 cur = .ok (mid, h1) ∧
      runLoop ct kw s2 mid = .ok (fin, h2) ∧ hist = h1 ++ h2 := by
  rw [runLoop_append] at h
  cases h1 : runLoop ct kw s1 cur with
  | error e => rw [h1] at h; exact absurd h (by simp)
  | ok p =>
    obtain ⟨mid, hh1⟩ := p
    rw [h1] at h
    dsimp only at h
    cases h2 : runLoop ct kw s2 mid with
    | error e => rw [h2] at h; exact absurd h (by simp)
    | ok q =>
      obtain ⟨fin2, hh2⟩ := q
      rw [h2] at h
      dsimp only at h
      simp only [Except.ok.injEq, Prod.mk.injEq] at h
      exact ⟨mid, hh1, hh2, rfl, by rw [h2, h.1], h.2.symm⟩

lemma applyStep_ok_name {κ ε} (ct : String → Nat) (name : String)
    (component : Handler κ ε) (current : String) (kw : κ)
    (p : String × StepMetadata)
    (h : applyStep ct name component current kw = .ok p) :
    p.2.step_name = name := by
  cases component with
  | optimizer cls f =>
    cases hf : f current kw with
    | error e => rw [applyStep, hf] at h; exact absurd h (by simp [Except.map])
    | ok result =>
      rw [applyStep, hf] at h
      simp only [Except.map, Except.ok.injEq] at h
      rw [← h]
  | compressor cls f =>
    cases hf : f current kw with
    | error e => rw [applyStep, hf] at h; exact absurd h (by simp [Except.map])
    | ok result =>
      rw [applyStep, hf] at h
      simp only [Except.map, Except.ok.injEq] at h
      rw [← h]
  | generic cls f =>
    cases hf : f current kw with
    | error e => rw [applyStep, hf] at h; exact absurd h (by simp [Except.map])
    | ok output =>
      rw [applyStep, hf] at h
      simp only [Except.map, Except.ok.injEq] at h
      rw [← h]

lemma runLoop_history_names {κ ε} (ct : String → Nat) (kw : κ)
    (steps : List (String × Handler κ ε)) (cur fin : String)
    (hist : List StepMetadata)
    (h : runLoop ct kw steps cur = .ok (fin, hist)) :
    hist.length = steps.length ∧
      ∀ i : Nat, (hist[i]?).map StepMetadata.step_name =
        (steps[i]?).map (fun s : String × Handler κ ε => s.1) := by
  induction steps generalizing cur fin hist with
  | nil =>
    simp only [runLoop, Except.ok.injEq, Prod.mk.injEq] at h
    obtain ⟨h1, h2⟩ := h
    subst h2
    simp
  | cons hd tl ih =>
    obtain ⟨name, component⟩ := hd
    rw [runLoop] at h
    cases ha : applyStep ct name component cur kw with
    | error e => rw [ha] at h; exact absurd h (by simp)
    | ok p =>
      obtain ⟨next, md⟩ := p
      rw [ha] at h
      dsimp only at h
      cases hr : runLoop ct kw tl next with
      | error e => rw [hr] at h; exact absurd h (by simp)
      | ok q =>
        obtain ⟨fin2, h2⟩ := q
        rw [hr] at h
        dsimp only at h
        simp only [Except.ok.injEq, Prod.mk.injEq] at h
        obtain ⟨hfin, hhist⟩ := h
        obtain ⟨hlen, hnames⟩ := ih next fin2 h2 hr
        subst hhist
        refine ⟨by simp [hlen], ?_⟩
        intro i
        match i with
        | 0 =>
          simpa using applyStep_ok_name ct name component cur kw (next, md) ha
        | i + 1 => simpa using hnames i

lemma runLoop_cons {κ ε} (ct : String → Nat) (kw : κ)
    (p : String × Handler κ ε) (rest : List (String × Handler κ ε)) (cur : String) :
    runLoop ct kw (p :: rest) cur =
      match applyStep ct p.1 p.2 cur kw with
      | .error e => .error e
      | .ok (next, md) =>
        match runLoop ct kw rest next with
        | .error e => .error e
        | .ok (final, hist) => .ok (final, md :: hist) := by
  obtain ⟨a, b⟩ := p
  rfl

lemma run_ok_iff {κ ε} (ct : String → Nat) (steps : List (String × Handler κ ε))
    (content : String) (kw : κ) (r : PipelineResult) :
    Pipeline.run ct steps content kw = .ok r ↔
      runLoop ct kw steps content = .ok (r.final_content, r.history) ∧
        r.original_content = content := by
  unfold Pipeline.run
  cases hr : runLoop ct kw steps content with
  | error e => simp
  | ok p =>
    obtain ⟨fin, hist⟩ := p
    constructor
    · intro h
      simp only [Except.ok.injEq] at h
      subst h
      exact ⟨rfl, rfl⟩
    · intro hc
      obtain ⟨h1, h2⟩ := hc
      simp only [Except.ok.injEq, Prod.mk.injEq] at h1
      obtain ⟨hf, hh⟩ := h1
      cases r
      simp_all

/-- C4: for every successful `run`, the history has exactly one entry per
executed step, in execution order: its length equals the number of steps and
the i-th entry's `step_name` is the i-th step's name. -/
theorem history_alignment {κ ε} (ct : String → Nat)
    (steps : List (String × Handler κ ε)) (content : String) (kw : κ)
    (r : PipelineResult) (h : Pipeline.run ct steps content kw = .ok r) :
    r.history.length = steps.length ∧
      ∀ i : Nat, (r.history[i]?).map StepMetadata.step_name =
        (steps[i]?).map (fun s : String × Handler κ ε => s.1) := by
  obtain ⟨hloop, _⟩ := (run_ok_iff ct steps content kw r).mp h
  exact runLoop_history_names ct kw steps content r.final_content r.history hloop

/-- First history entry of the two-step witness pipeline. -/
def wMd1 : StepMetadata := ⟨"opt", 0, 0, 0, ⟨"optimization", "HasteOptimizer"⟩⟩

/-- Second history entry of the two-step witness pipeline. -/
def wMd2 : StepMetadata := ⟨"comp", 0, 0, 0, ⟨"compression", "ScaleDownCompressor"⟩⟩

/-- Result of running the two-step witness pipeline on "hi". -/
def wRes : PipelineResult := ⟨"hi", "hi", [wMd1, wMd2]⟩

/-- Witness for C4 at the concrete two-step pipeline. -/
theorem history_alignment_witness :
    wRes.history.length = ([oStepW, cStepW]).length ∧
      ∀ i : Nat, (wRes.history[i]?).map StepMetadata.step_name =
        (([oStepW, cStepW])[i]?).map (fun s : String × Handler Unit Unit => s.1) :=
  history_alignment String.length [oStepW, cStepW] "hi" () wRes rfl

/-- C3: `Pipeline.run` threads content sequentially. For every successful
run: `original_content` is the input as snapshotted before any step ran;
step `i` is invoked on exactly the final content produced by the first `i`
steps (so step `i+1` receives step `i`'s output, not the original input);
and `final_content` is the output of the last step. -/
theorem run_threading {κ ε} (ct : String → Nat)
    (steps : List (String × Handler κ ε)) (content : String) (kw : κ)
    (r : PipelineResult) (h : Pipeline.run ct steps content kw = .ok r) :
    r.original_content = content ∧
    (∀ i : Nat, (hi : i < steps.length) →
      ∃ ri out md,
        Pipeline.run ct (steps.take i) content kw = .ok ri ∧
        applyStep ct steps[i].1 steps[i].2 ri.final_content kw = .ok (out, md) ∧
        Pipeline.run ct (steps.take (i + 1)) content kw =
          .ok ⟨out, content, ri.history ++ [md]⟩) ∧
    (steps = [] → r.final_content = content) ∧
    (∀ hne : steps ≠ [], ∃ rp out md,
      Pipeline.run ct steps.dropLast content kw = .ok rp ∧
      applyStep ct (steps.getLast hne).1 (steps.getLast hne).2 rp.final_content kw
        = .ok (out, md) ∧
      r.final_content = out) := by
  obtain ⟨hloop, horig⟩ := (run_ok_iff ct steps content kw r).mp h
  have hstep : ∀ i : Nat, (hi : i < steps.length) →
      ∃ ri out md,
        Pipeline.run ct (steps.take i) content kw = .ok ri ∧
        applyStep ct steps[i].1 steps[i].2 ri.final_content kw = .ok (out, md) ∧
        Pipeline.run ct (steps.take (i + 1)) content kw =
          .ok ⟨out, content, ri.history ++ [md]⟩ := by
    intro i hi
    obtain ⟨mid, hh1, hh2, hpre, hdrop, hcat⟩ :=
      runLoop_ok_split ct kw (steps.take i) (steps.drop i) content
        r.final_content r.history (by rw [List.take_append_drop]; exact hloop)
    rw [List.drop_eq_getElem_cons hi, runLoop_cons] at hdrop
    cases ha : applyStep ct steps[i].1 steps[i].2 mid kw with
    | error e => rw [ha] at hdrop; exact absurd hdrop (by simp)
    | ok q =>
      obtain ⟨next, md⟩ := q
      rw [ha] at hdrop
      dsimp only at hdrop
      cases hrest : runLoop ct kw (steps.drop (i + 1)) next with
      | error e => rw [hrest] at hdrop; exact absurd hdrop (by simp)
      | ok w =>
        obtain ⟨fin2, hist2⟩ := w
        rw [hrest] at hdrop
        dsimp only at hdrop
        refine ⟨⟨mid, content, hh1⟩, next, md,
          (run_ok_iff ct (steps.take i) content kw _).mpr ⟨hpre, rfl⟩, ha, ?_⟩
        apply (run_ok_iff ct (steps.take (i + 1)) content kw _).mpr
        refine ⟨?_, rfl⟩
        rw [← List.take_concat_get' steps i hi, runLoop_append, hpre]
        dsimp only
        rw [runLoop_cons, ha]
        dsimp only
        rw [runLoop]
  refine ⟨horig, hstep, ?_, ?_⟩
  · intro hnil
    subst hnil
    simp only [runLoop, Except.ok.injEq, Prod.mk.injEq] at hloop
    exact hloop.1.symm
  · intro hne
    have hpos : 0 < steps.length := List.length_pos.mpr hne
    have hone : 1 ≤ steps.length := hpos
    have hi : steps.length - 1 < steps.length := Nat.sub_lt hpos Nat.one_pos
    obtain ⟨ri, out, md, hpre, happ, hsucc⟩ := hstep (steps.length - 1) hi
    refine ⟨ri, out, md, ?_, ?_, ?_⟩
    · rw [List.dropLast_eq_take]
      exact hpre
    · rw [List.getLast_eq_getElem steps hne]
      exact happ
    · rw [Nat.sub_add_cancel hone, List.take_length, h] at hsucc
      simp only [Except.ok.injEq] at hsucc
      rw [hsucc]

/-- Witness for C3 at the concrete two-step pipeline run on "hi". -/
theorem run_threading_witness :
    wRes.original_content = "hi" ∧
    (∀ i : Nat, (hi : i < ([oStepW, cStepW]).length) →
      ∃ ri out md,
        Pipeline.run String.length (([oStepW, cStepW]).take i) "hi" () = .ok ri ∧
        applyStep String.length ([oStepW, cStepW])[i].1 ([oStepW, cStepW])[i].2
          ri.final_content () = .ok (out, md) ∧
        Pipeline.run String.length (([oStepW, cStepW]).take (i + 1)) "hi" () =
          .ok ⟨out, "hi", ri.history ++ [md]⟩) ∧
    (([oStepW, cStepW] : List (String × Handler Unit Unit)) = [] →
      wRes.final_content = "hi") ∧
    (∀ hne : ([oStepW, cStepW] : List (String × Handler Unit Unit)) ≠ [],
      ∃ rp out md,
        Pipeline.run String.length ([oStepW, cStepW]).dropLast "hi" () = .ok rp ∧
        applyStep String.length (([oStepW, cStepW]).getLast hne).1
          (([oStepW, cStepW]).getLast hne).2 rp.final_content () = .ok (out, md) ∧
        wRes.final_content = out) :=
  run_threading String.length [oStepW, cStepW] "hi" () wRes rfl

/-- C5: fail-fast atomicity. If the prefix `pre` runs successfully and the
next step's invocation raises `e`, the whole run raises exactly `e`: no
`PipelineResult` (in particular none holding the accumulated history) is
returned. -/
theorem run_failfast {κ ε} (ct : String → Nat)
    (pre post : List (String × Handler κ ε)) (name : String)
    (component : Handler κ ε) (content : String) (kw : κ)
    (rp : PipelineResult) (e : ε)
    (hpre : Pipeline.run ct pre content kw = .ok rp)
    (hstep : applyStep ct name component rp.final_content kw = .error e) :
    Pipeline.run ct (pre ++ (name, component) :: post) content kw = .error e := by
  obtain ⟨hloop, _⟩ := (run_ok_iff ct pre content kw rp).mp hpre
  unfold Pipeline.run
  rw [runLoop_append, hloop]
  dsimp only
  rw [runLoop_cons]
  rw [hstep]

/-- Failing compressor used as the C5 witness: its invocation always raises
(the `ε` value plays the role of an `AuthenticationError`). -/
def failHandler : Handler Unit Unit := Handler.compressor "FailingCompressor" (fun _ _ => .error ())

/-- Witness for C5: a pipeline whose second step raises propagates that very
error. -/
theorem run_failfast_witness :
    Pipeline.run String.length ([oStepW] ++ ("boom", failHandler) :: []) "hi" ()
      = .error () :=
  run_failfast String.length [oStepW] [] "boom" failHandler "hi" ()
    ⟨"hi", "hi", [wMd1]⟩ () rfl rfl

/-- C6 (amended): for a Compressor-capable step at position `i`, `run`
invokes `compress` on the threaded content with the caller's `**kwargs` bag
forwarded verbatim (the very `kw` the caller supplied — the engine computes
no fallback), and on success records `input_tokens = result.tokens[0]`,
`output_tokens = result.tokens[1]`, `latency_ms` from the result, and
`details.type = "compression"` in that step's history entry. -/
theorem compressor_dispatch_records {κ ε} (ct : String → Nat)
    (steps : List (String × Handler κ ε)) (content : String) (kw : κ)
    (i : Nat) (hi : i < steps.length) (name cls : String)
    (f : String → κ → Except ε CompressedPrompt)
    (ri r : PipelineResult) (res : CompressedPrompt)
    (hstep : steps[i] = (name, Handler.compressor cls f))
    (hpre : Pipeline.run ct (steps.take i) content kw = .ok ri)
    (hres : f ri.final_content kw = .ok res)
    (hrun : Pipeline.run ct steps content kw = .ok r) :
    r.history[i]? =
      some ⟨name, res.tokens.1, res.tokens.2, res.latency, ⟨"compression", cls⟩⟩ := by
  obtain ⟨hloop, _⟩ := (run_ok_iff ct steps content kw r).mp hrun
  obtain ⟨hloopPre, _⟩ := (run_ok_iff ct (steps.take i) content kw ri).mp hpre
  obtain ⟨mid, hh1, hh2, hpre2, hdrop, hcat⟩ :=
    runLoop_ok_split ct kw (steps.take i) (steps.drop i) content
      r.final_content r.history (by rw [List.take_append_drop]; exact hloop)
  rw [hloopPre] at hpre2
  simp only [Except.ok.injEq, Prod.mk.injEq] at hpre2
  obtain ⟨hmid, hh1eq⟩ := hpre2
  rw [List.drop_eq_getElem_cons hi, hstep, runLoop_cons] at hdrop
  have happly : applyStep ct name (Handler.compressor cls f) mid kw =
      .ok (res.content,
        ⟨name, res.tokens.1, res.tokens.2, res.latency, ⟨"compression", cls⟩⟩) := by
    rw [applyStep]
    rw [← hmid, hres]
    rfl
  rw [show ((name, Handler.compressor cls f) : String × Handler κ ε).1 = name from rfl,
    show ((name, Handler.compressor cls f) : String × Handler κ ε).2 =
      Handler.compressor cls f from rfl] at hdrop
  rw [happly] at hdrop
  dsimp only at hdrop
  cases hrest : runLoop ct kw (steps.drop (i + 1)) res.content with
  | error e => rw [hrest] at hdrop; exact absurd hdrop (by simp)
  | ok w =>
    obtain ⟨fin2, hist2⟩ := w
    rw [hrest] at hdrop
    dsimp only at hdrop
    simp only [Except.ok.injEq, Prod.mk.injEq] at hdrop
    obtain ⟨hfin2, hh2eq⟩ := hdrop
    have hlen1 : hh1.length = i := by
      rw [← hh1eq]
      have := (runLoop_history_names ct kw (steps.take i) content
        ri.final_content ri.history hloopPre).1
      rw [this, List.length_take]
      exact Nat.min_eq_left (Nat.le_of_lt hi)
    rw [hcat, ← hh2eq]
    rw [List.getElem?_append_right (by rw [hlen1])]
    rw [hlen1]
    simp

/-- Witness for C6 at a concrete one-compressor pipeline. -/
theorem compressor_dispatch_records_witness :
    (⟨"hi", "hi", [wMd2]⟩ : PipelineResult).history[0]? = some wMd2 :=
  compressor_dispatch_records String.length [cStepW] "hi" () 0 (by decide)
    "comp" "ScaleDownCompressor" (fun s _ => .ok ⟨s, (0, 0), 0⟩)
    ⟨"hi", "hi", []⟩ ⟨"hi", "hi", [wMd2]⟩ ⟨"hi", (0, 0), 0⟩ rfl rfl rfl rfl

/-- The keyword arguments relevant to the C6 claim, as a concrete `**kwargs`
bag: the caller's `query` and `instruction` values, each possibly absent. -/
structure RunKwargs where
  query : Option String
  instruction : Option String
deriving DecidableEq

/-- Probe compressor: its output content reveals exactly the `instruction`
value present in the kwargs bag it was invoked with (the tag "NO-INSTRUCTION"
when the bag holds none). -/
def probeHandler : Handler RunKwargs Unit :=
  Handler.compressor "ProbeCompressor"
    (fun _ kw => .ok ⟨kw.instruction.getD "NO-INSTRUCTION", (0, 0), 0⟩)

/-- C6 counterexample. The claim says `Pipeline.run` invokes `compress` with
the instruction argument computed as `instruction or query or ""`; with
`instruction = none` and `query = some "q"` the probe would then see "q".
Running the probe pipeline shows the probe sees no instruction at all — the
source (pipeline.py line 77-80) forwards `**kwargs` verbatim and computes no
such fallback — so the run returns "NO-INSTRUCTION", not "q". -/
theorem compressor_instruction_not_merged :
    Pipeline.run String.length [("comp", probeHandler)] "ctx" ⟨some "q", none⟩
      = .ok ⟨"NO-INSTRUCTION", "ctx",
          [⟨"comp", 0, 0, 0, ⟨"compression", "ProbeCompressor"⟩⟩]⟩
    ∧ "NO-INSTRUCTION" ≠ "q" := by
  exact ⟨rfl, by decide⟩

/-- A tiktoken-like backend (scaledown/types/metrics.py): `encoding_for_model`
yields the model-specific encoding or fails (`KeyError`) for an unrecognized
model id; `get_encoding` yields a named encoding. An encoding maps text to
its token list (`encoding.encode`), whose length is the count. -/
structure TokenBackend where
  encoding_for_model : String → Option (String → List Nat)
  get_encoding : String → String → List Nat

/-- The `DependencyMissingError` kind: `count_tokens` raises `ImportError`
when tiktoken is absent. -/
inductive TokenError where
  | tiktokenMissing
deriving DecidableEq

/-- `count_tokens` (scaledown/types/metrics.py lines 10-33). `tiktoken` is
`none` when the import at module load failed. The empty-text check comes
first, before the backend check, exactly as in the source. -/
def count_tokens (tiktoken : Option TokenBackend) (text : String)
    (model : String) : Except TokenError Nat :=
  if text = "" then .ok 0
  else
    match tiktoken with
    | none => .error TokenError.tiktokenMissing
    | some tk =>
      let encoding :=
        match tk.encoding_for_model model with
        | some enc => enc
        | none => tk.get_encoding "cl100k_base"
      .ok (encoding text).length

/-- C8 (amended): `count_tokens` returns 0 for every empty text, even with
no backend available; it fails with the DependencyMissingError kind whenever
no backend is available and the text is non-empty; and any two unrecognized
model identifiers select the same fixed default encoding, so the count for a
given text agrees across them. -/
theorem count_tokens_contract :
    (∀ (tiktoken : Option TokenBackend) (model : String),
      count_tokens tiktoken "" model = .ok 0) ∧
    (∀ (text model : String), text ≠ "" →
      count_tokens none text model = .error TokenError.tiktokenMissing) ∧
    (∀ (tk : TokenBackend) (text m1 m2 : String),
      tk.encoding_for_model m1 = none → tk.encoding_for_model m2 = none →
      count_tokens (some tk) text m1 = count_tokens (some tk) text m2) := by
  refine ⟨fun tiktoken model => by simp [count_tokens], ?_, ?_⟩
  · intro text model htext
    simp [count_tokens, htext]
  · intro tk text m1 m2 h1 h2
    by_cases htext : text = ""
    · simp [count_tokens, htext]
    · simp [count_tokens, htext, h1, h2]

/-- Backend used by the C8 witness: recognizes only "gpt-4o". -/
def wBackend : TokenBackend :=
  ⟨fun m => if m = "gpt-4o" then some (fun s => s.data.map (fun _ => 0)) else none,
   fun _ s => s.data.map (fun _ => 1)⟩

/-- Witness for C8 at concrete inputs: empty text counts 0, a missing
backend fails on non-empty text, and two unrecognized models agree. -/
theorem count_tokens_contract_witness :
    count_tokens (some wBackend) "" "gpt-4o" = .ok 0 ∧
    count_tokens none "ab" "gpt-4o" = .error TokenError.tiktokenMissing ∧
    count_tokens (some wBackend) "ab" "claude" =
      count_tokens (some wBackend) "ab" "llama" :=
  ⟨count_tokens_contract.1 (some wBackend) "gpt-4o",
   count_tokens_contract.2.1 "ab" "gpt-4o" (by decide),
   count_tokens_contract.2.2 wBackend "ab" "claude" "llama" rfl rfl⟩

/-- C8 counterexample. The claim requires `count_tokens` to fail with
DependencyMissingError whenever no tokenizer backend is available, but for
empty text the source returns 0 before checking the backend: with no backend
and empty text the call succeeds with 0 instead of failing. -/
theorem count_tokens_empty_no_backend :
    count_tokens none "" "claude" = .ok 0 := rfl

/-- External collaborators of `HasteOptimizer.optimize`
(scaledown/optimizer/haste.py): the HASTE `select_from_file` call (returning
the selected code and the retrieved nodes, or raising), the filesystem read
used for original-token estimation (`none` when `os.path.exists` is false),
`count_tokens` at the configured target model, the temp-file path
`tempfile.NamedTemporaryFile` would produce for a string context, and the
wall-clock latency of the call. -/
structure HasteEnv where
  select : String → String → Except String (String × Nat)
  readFile : String → Option String
  ct : String → Nat
  tempPath : String → String
  elapsedMs : Rat

/-- Errors raised by `HasteOptimizer.optimize`: the two `ValueError` cases
and the `OptimizerError` wrapping any exception of the HASTE call. -/
inductive HasteError where
  | queryRequired
  | filePathRequired
  | optimizerError (msg : String)
deriving DecidableEq

/-- `HasteOptimizer.optimize` (scaledown/optimizer/haste.py lines 78-188).
`semantic` is the constructor flag selecting the retrieval mode tag; the
remaining HASTE configuration only flows into `select` and is folded into
`env.select`. `if not query` and `if not file_path` treat `None` and the
empty string alike, hence the `Option.getD "" = ""` tests. -/
def hasteOptimize (env : HasteEnv) (semantic : Bool) (context : String)
    (query : Option String) (file_path : Option String) :
    Except HasteError OptimizedContext :=
  if (query.getD "") = "" then .error HasteError.queryRequired
  else
    let fpResolved : Except HasteError String :=
      if (file_path.getD "") = "" then
        if context.trim = "" then .error HasteError.filePathRequired
        else .ok (env.tempPath context)
      else .ok (file_path.getD "")
    match fpResolved with
    | .error e => .error e
    | .ok fp =>
      match env.select fp (query.getD "") with
      | .error e => .error (HasteError.optimizerError e)
      | .ok (code, numNodes) =>
        let original_tokens :=
          match env.readFile fp with
          | some src => env.ct src
          | none => 0
        let optimized_tokens := env.ct code
        .ok ⟨code,
          ⟨original_tokens, optimized_tokens, numNodes,
            (original_tokens : Rat) / ((max optimized_tokens 1 : Nat) : Rat),
            env.elapsedMs,
            if semantic then "hybrid" else "bm25",
            1⟩⟩

/-- One semantic unit produced by `_extract_semantic_units`
(scaledown/optimizer/semantic_code.py lines 56-91): the whole file comes
first with type "file", then classes and functions in AST walk order. -/
structure SemUnit where
  type : String
  name : String
  code : String
deriving DecidableEq

/-- The state of `_lazy_load_deps` as `optimize` observes it: the imports
fail (`OptimizerError` raised), the embedding model failed to load
(`model_load_failed` set, pass-through mode), or the model loaded. A loaded
model together with the FAISS index is abstracted as the composite search
function codes → query → k → neighbour indices (FAISS returns indices in
[-1, number of vectors), −1 marking an absent neighbour, which the source
filters out). -/
inductive ModelState where
  | depsMissing
  | loadFailed
  | loaded (search : List String → String → Nat → List Int)

/-- Errors raised by `SemanticOptimizer`: the missing-dependency
`OptimizerError` of `_lazy_load_deps` and the AST-parsing `OptimizerError`
of `_extract_semantic_units` (carrying the underlying exception text). -/
inductive SemError where
  | depsMissing
  | astParseFailed (msg : String)
deriving DecidableEq

/-- External collaborators and configuration of `SemanticOptimizer`:
`count_tokens` at the target model, `_extract_semantic_units` over the
filesystem and `ast` (raw exception text on failure), the lazy-load state,
`top_k`, and the wall-clock latency. -/
structure SemEnv where
  ct : String → Nat
  extract : String → Except String (List SemUnit)
  modelState : ModelState
  top_k : Nat
  elapsedMs : Rat

/-- `full_source` as computed at semantic_code.py line 115: the first
unit's code when it is the file unit, else the empty string. -/
def fullSourceOf (units : List SemUnit) : String :=
  match units with
  | u :: _ => if u.type = "file" then u.code else ""
  | [] => ""

/-- `SemanticOptimizer._create_fallback_context` (semantic_code.py lines
177-190): pass-through content, equal token counts, ratio 1.0 and a
"fallback_" marker. -/
def create_fallback_context (content : String) (tokens : Nat) (elapsedMs : Rat)
    (reason : String) : OptimizedContext :=
  ⟨content, ⟨tokens, tokens, 0, 1, elapsedMs, "fallback_" ++ reason, 1⟩⟩

/-- `SemanticOptimizer.optimize` (semantic_code.py lines 93-175). The match
priority mirrors the source's raise order: the missing-file_path fallback is
checked first; then `_lazy_load_deps` may raise; then unit extraction may
raise; then the `model_load_failed` fallback; then the empty-units and
no-valid-chunks fallbacks; finally the search path, where an absent or empty
query is replaced by "main logic" before the query is embedded. -/
def semanticOptimize (env : SemEnv) (context : String)
    (query : Option String) (file_path : Option String) :
    Except SemError OptimizedContext :=
  if (file_path.getD "") = "" then
    .ok (create_fallback_context context (env.ct context) env.elapsedMs
      "missing_filepath")
  else
    let fp := file_path.getD ""
    match env.modelState, env.extract fp with
    | ModelState.depsMissing, _ => .error SemError.depsMissing
    | _, .error msg => .error (SemError.astParseFailed msg)
    | ModelState.loadFailed, .ok units =>
      .ok (create_fallback_context (fullSourceOf units)
        (env.ct (fullSourceOf units)) env.elapsedMs "model_load_failed")
    | ModelState.loaded search, .ok units =>
      let full_source := fullSourceOf units
      let orig_tokens := env.ct full_source
      if units = [] then
        .ok (create_fallback_context "" orig_tokens env.elapsedMs "no_units")
      else
        let valid_units := units.filter (fun u => u.code ≠ "" && u.type ≠ "file")
        if valid_units = [] then
          .ok (create_fallback_context "" orig_tokens env.elapsedMs
            "no_valid_chunks")
        else
          let codes := valid_units.map SemUnit.code
          let q := if (query.getD "") = "" then "main logic" else query.getD ""
          let k_search := min env.top_k valid_units.length
          let idxs := search codes q k_search
          let results := (idxs.filter (fun i => i ≠ -1)).filterMap
            (fun i => codes.get? i.toNat)
          let final_content :=
            String.intercalate "\n\n# ... [Semantic Context Search Result] ...\n\n"
              results
          let opt_tokens := env.ct final_content
          let ratio : Rat :=
            if 0 < orig_tokens then (opt_tokens : Rat) / (orig_tokens : Rat) else 0
          .ok ⟨final_content,
            ⟨orig_tokens, opt_tokens, results.length, ratio, env.elapsedMs,
              "semantic_search", 1⟩⟩

deriving instance DecidableEq for Except

/-- C2 (amended): `HasteOptimizer.optimize` computes `compression_ratio =
original_tokens / max(optimized_tokens, 1)` on every successful invocation;
`SemanticOptimizer.optimize` instead computes `optimized_tokens /
original_tokens` (0.0 when `original_tokens` is 0) on its search path, and
1.0 on every fallback path. -/
theorem compression_ratio_formula :
    (∀ (env : HasteEnv) (semantic : Bool) (context : String)
        (query file_path : Option String) (r : OptimizedContext),
      hasteOptimize env semantic context query file_path = .ok r →
      r.metrics.compression_ratio =
        (r.metrics.original_tokens : Rat) /
          ((max r.metrics.optimized_tokens 1 : Nat) : Rat)) ∧
    (∀ (env : SemEnv) (context : String) (query file_path : Option String)
        (r : OptimizedContext),
      semanticOptimize env context query file_path = .ok r →
      r.metrics.compression_ratio =
        (if r.metrics.retrieval_mode = "semantic_search" then
          (if 0 < r.metrics.original_tokens then
            (r.metrics.optimized_tokens : Rat) / (r.metrics.original_tokens : Rat)
          else 0)
        else 1)) := by
  constructor
  · intro env semantic context query file_path r h
    by_cases hq : (query.getD "") = ""
    · rw [hasteOptimize, if_pos hq] at h
      exact absurd h (by simp)
    · rw [hasteOptimize, if_neg hq] at h
      dsimp only at h
      by_cases hfp : (file_path.getD "") = ""
      · rw [if_pos hfp] at h
        by_cases hctx : context.trim = ""
        · rw [if_pos hctx] at h
          exact absurd h (by simp)
        · rw [if_neg hctx] at h
          dsimp only at h
          cases hsel : env.select (env.tempPath context) (query.getD "") with
          | error e => rw [hsel] at h; exact absurd h (by simp)
          | ok p =>
            obtain ⟨code, numNodes⟩ := p
            rw [hsel] at h
            dsimp only at h
            simp only [Except.ok.injEq] at h
            subst h
            rfl
      · rw [if_neg hfp] at h
        dsimp only at h
        cases hsel : env.select (file_path.getD "") (query.getD "") with
        | error e => rw [hsel] at h; exact absurd h (by simp)
        | ok p =>
          obtain ⟨code, numNodes⟩ := p
          rw [hsel] at h
          dsimp only at h
          simp only [Except.ok.injEq] at h
          subst h
          rfl
  · intro env context query file_path r h
    by_cases hfp : (file_path.getD "") = ""
    · rw [semanticOptimize, if_pos hfp] at h
      simp only [Except.ok.injEq] at h
      subst h
      simp [create_fallback_context]
    · rw [semanticOptimize, if_neg hfp] at h
      dsimp only at h
      cases hms : env.modelState with
      | depsMissing => rw [hms] at h; exact absurd h (by simp)
      | loadFailed =>
        cases hx : env.extract (file_path.getD "") with
        | error msg => rw [hms, hx] at h; exact absurd h (by simp)
        | ok units =>
          rw [hms, hx] at h
          dsimp only at h
          simp only [Except.ok.injEq] at h
          subst h
          simp [create_fallback_context]
      | loaded search =>
        cases hx : env.extract (file_path.getD "") with
        | error msg => rw [hms, hx] at h; exact absurd h (by simp)
        | ok units =>
          rw [hms, hx] at h
          dsimp only at h
          by_cases hu : units = []
          · rw [if_pos hu] at h
            simp only [Except.ok.injEq] at h
            subst h
            simp [create_fallback_context]
          · rw [if_neg hu] at h
            by_cases hv : units.filter (fun u => u.code ≠ "" && u.type ≠ "file") = []
            · rw [if_pos hv] at h
              simp only [Except.ok.injEq] at h
              subst h
              simp [create_fallback_context]
            · rw [if_neg hv] at h
              simp only [Except.ok.injEq] at h
              subst h
              simp

/-- Concrete HASTE environment for the C2 witness: the tokenizer is the
character count, the HASTE call selects "a" from the 2-character file. -/
def cHasteEnv : HasteEnv :=
  ⟨fun _ _ => .ok ("a", 1), fun _ => some "ab", String.length,
   fun _ => "/tmp/ctx.py", 0⟩

/-- Result of the C2 witness invocation: 2 original tokens, 1 optimized
token, ratio 2/1 (written as the division the source computes). -/
def cHasteRes : OptimizedContext :=
  ⟨"a", ⟨2, 1, 1, ((2 : Nat) : Rat) / ((max 1 1 : Nat) : Rat), 0, "bm25", 1⟩⟩

/-- Witness for C2 at a concrete HasteOptimizer invocation. -/
theorem compression_ratio_formula_witness :
    hasteOptimize cHasteEnv false "code" (some "q") (some "f.py") = .ok cHasteRes ∧
    cHasteRes.metrics.compression_ratio =
      (cHasteRes.metrics.original_tokens : Rat) /
        ((max cHasteRes.metrics.optimized_tokens 1 : Nat) : Rat) :=
  ⟨rfl,
   compression_ratio_formula.1 cHasteEnv false "code" (some "q") (some "f.py")
     cHasteRes rfl⟩

/-- Concrete semantic environment for the C2 counterexample: a 2-character
file "ab" holding one 1-character function "a", loaded model whose search
returns the single chunk. -/
def cSemEnv : SemEnv :=
  ⟨String.length,
   fun _ => .ok [⟨"file", "f.py", "ab"⟩, ⟨"function", "g", "a"⟩],
   ModelState.loaded (fun _ _ _ => [0]), 3, 0⟩

/-- Result of the C2 counterexample invocation: the stored ratio is
optimized/original = 1/2. -/
def cSemRes : OptimizedContext :=
  ⟨"a", ⟨2, 1, 1, ((1 : Nat) : Rat) / ((2 : Nat) : Rat), 0, "semantic_search", 1⟩⟩

/-- C2 counterexample. On this concrete successful `SemanticOptimizer`
invocation the stored `compression_ratio` is `optimized_tokens /
original_tokens = 1/2` (semantic_code.py line 162), not the claimed
`original_tokens / max(optimized_tokens, 1) = 2`. -/
theorem semantic_ratio_counterexample :
    semanticOptimize cSemEnv "ctx" (some "q") (some "f.py") = .ok cSemRes ∧
    cSemRes.metrics.compression_ratio ≠
      (cSemRes.metrics.original_tokens : Rat) /
        ((max cSemRes.metrics.optimized_tokens 1 : Nat) : Rat) := by
  refine ⟨rfl, ?_⟩
  show ((1 : Nat) : Rat) / ((2 : Nat) : Rat) ≠
    ((2 : Nat) : Rat) / ((max 1 1 : Nat) : Rat)
  norm_num

/-- C9 (amended): when `file_path` is absent, `optimize` returns a fallback
carrying the context argument unchanged; when the embedding model failed to
load and unit extraction succeeds, it returns a fallback carrying the file's
full source; in both cases `retrieval_mode` is `"fallback_" ++ reason`, a
string beginning with "fallback_". When the model failed to load but unit
extraction itself raises, that OptimizerError propagates instead of a
fallback. -/
theorem semantic_fallback_behaviour (env : SemEnv) (context : String)
    (query file_path : Option String) :
    ((file_path.getD "") = "" →
      semanticOptimize env context query file_path =
        .ok (create_fallback_context context (env.ct context) env.elapsedMs
          "missing_filepath")) ∧
    ((file_path.getD "") ≠ "" → env.modelState = ModelState.loadFailed →
      ∀ units, env.extract (file_path.getD "") = .ok units →
        semanticOptimize env context query file_path =
          .ok (create_fallback_context (fullSourceOf units)
            (env.ct (fullSourceOf units)) env.elapsedMs "model_load_failed")) ∧
    ((file_path.getD "") ≠ "" → env.modelState = ModelState.loadFailed →
      ∀ msg, env.extract (file_path.getD "") = .error msg →
        semanticOptimize env context query file_path =
          .error (SemError.astParseFailed msg)) ∧
    (∀ (content : String) (tokens : Nat) (ems : Rat) (reason : String),
      (create_fallback_context content tokens ems reason).content = content ∧
      (create_fallback_context content tokens ems reason).metrics.retrieval_mode =
        "fallback_" ++ reason) := by
  refine ⟨?_, ?_, ?_, fun content tokens ems reason => ⟨rfl, rfl⟩⟩
  · intro hfp
    rw [semanticOptimize, if_pos hfp]
  · intro hfp hmodel units hx
    rw [semanticOptimize, if_neg hfp]
    dsimp only
    rw [hmodel, hx]
  · intro hfp hmodel msg hx
    rw [semanticOptimize, if_neg hfp]
    dsimp only
    rw [hmodel, hx]

/-- Environment for the C9 witness: model load failed, the file parses to
its single file unit. -/
def cSemFallbackEnv : SemEnv :=
  ⟨String.length, fun _ => .ok [⟨"file", "f.py", "ab"⟩],
   ModelState.loadFailed, 3, 0⟩

/-- Witness for C9: the missing-file_path fallback passes the context
through; the model-load-failed fallback passes the file source through. -/
theorem semantic_fallback_behaviour_witness :
    semanticOptimize cSemFallbackEnv "orig" (some "q") none =
      .ok (create_fallback_context "orig" (cSemFallbackEnv.ct "orig")
        cSemFallbackEnv.elapsedMs "missing_filepath") ∧
    semanticOptimize cSemFallbackEnv "orig" (some "q") (some "f.py") =
      .ok (create_fallback_context (fullSourceOf [⟨"file", "f.py", "ab"⟩])
        (cSemFallbackEnv.ct (fullSourceOf [⟨"file", "f.py", "ab"⟩]))
        cSemFallbackEnv.elapsedMs "model_load_failed") :=
  ⟨(semantic_fallback_behaviour cSemFallbackEnv "orig" (some "q") none).1 rfl,
   (semantic_fallback_behaviour cSemFallbackEnv "orig" (some "q")
     (some "f.py")).2.1 (by decide) rfl [⟨"file", "f.py", "ab"⟩] rfl⟩

/-- Environment for the C9 counterexample: model load failed and the file
does not parse. -/
def cSemBadEnv : SemEnv :=
  ⟨String.length, fun _ => .error "boom", ModelState.loadFailed, 3, 0⟩

/-- C9 counterexample. The claim says every invocation with a failed model
load returns a fallback instead of raising; here the model failed to load
and `_extract_semantic_units` fails on the given file, so `optimize` raises
an OptimizerError (semantic_code.py line 91 — extraction runs at line 114
before the `model_load_failed` fallback at line 119). -/
theorem semantic_fallback_raises :
    semanticOptimize cSemBadEnv "ctx" (some "q") (some "f.py")
      = .error (SemError.astParseFailed "boom") := rfl

/-- C10: with a valid file path, a loaded model and at least one valid
(non-file, non-empty) chunk, a missing or empty query does not fail:
"main logic" is substituted and the result equals the result of invoking
with query "main logic". -/
theorem semantic_default_query (env : SemEnv) (context : String)
    (file_path : Option String) (search : List String → String → Nat → List Int)
    (units : List SemUnit)
    (hfp : (file_path.getD "") ≠ "")
    (hm : env.modelState = ModelState.loaded search)
    (hx : env.extract (file_path.getD "") = .ok units)
    (hv : units.filter (fun u => u.code ≠ "" && u.type ≠ "file") ≠ []) :
    semanticOptimize env context none file_path =
      semanticOptimize env context (some "main logic") file_path ∧
    semanticOptimize env context (some "") file_path =
      semanticOptimize env context (some "main logic") file_path ∧
    ∃ r, semanticOptimize env context (some "main logic") file_path = .ok r := by
  have hu : units ≠ [] := by
    intro h
    subst h
    simp at hv
  refine ⟨?_, ?_, ?_⟩
  · simp only [semanticOptimize, if_neg hfp, hm, hx]
    simp only [if_neg hu, if_neg hv]
    simp
  · simp only [semanticOptimize, if_neg hfp, hm, hx]
    simp only [if_neg hu, if_neg hv]
    simp
  · simp only [semanticOptimize, if_neg hfp, hm, hx]
    simp only [if_neg hu, if_neg hv]
    exact ⟨_, rfl⟩

/-- Witness for C10 at the loaded concrete environment. -/
theorem semantic_default_query_witness :
    semanticOptimize cSemEnv "ctx" none (some "f.py") =
      semanticOptimize cSemEnv "ctx" (some "main logic") (some "f.py") ∧
    semanticOptimize cSemEnv "ctx" (some "") (some "f.py") =
      semanticOptimize cSemEnv "ctx" (some "main logic") (some "f.py") ∧
    ∃ r, semanticOptimize cSemEnv "ctx" (some "main logic") (some "f.py") = .ok r :=
  semantic_default_query cSemEnv "ctx" (some "f.py") (fun _ _ _ => [0])
    [⟨"file", "f.py", "ab"⟩, ⟨"function", "g", "a"⟩] (by decide) rfl rfl (by decide)
